/-
Verification of the DealDine backend (dealdine-backend.js): a shallow
embedding of the deal-extraction and expiry-notification pipeline, with
theorems settling the specification's claims about it.

Embedding conventions:
* JavaScript values that may be `undefined`/`null` are modelled as `Option`.
* JavaScript truthiness of a string value (`if (src)`) is modelled as
  "present and non-empty".
* Collaborator calls (Gmail fetch, the Claude completion, cheerio HTML
  parsing, JSON.parse, supabase, nodemailer) are modelled as function
  parameters or explicit success/failure flags; a thrown exception is
  modelled by an aborted/`none` result at the catch site that receives it.
* `Array.prototype.sort` (ES2019 and later: a stable sort) is embedded as
  `List.mergeSort`, which is stable.
* Calendar timestamps are modelled as integers counting days, so
  `threeDaysFromNow` is `now + 3`.
-/
import Mathlib

namespace DealDine

/-! ## MIME part trees and the part flattener (`getAllParts`, lines 247-254) -/

/-- The `body` object of a Gmail API message part: optional base64 `data`
(modelled as the already-decoded text) and optional `attachmentId`. -/
structure PartBody where
  data : Option String
  attachmentId : Option String

/-- A node of the Gmail message-part tree: `mimeType`, a `body`, and an
optional array of child `parts`.  `parts = some []` models a present but
empty array (which is truthy in JavaScript), `parts = none` models an
absent field. -/
inductive EmailPart where
  | mk (mimeType : String) (body : PartBody) (parts : Option (List EmailPart))

/-- The `mimeType` field of a part. -/
def EmailPart.mimeType : EmailPart → String
  | .mk m _ _ => m

/-- The `body` field of a part. -/
def EmailPart.body : EmailPart → PartBody
  | .mk _ b _ => b

/-- The `parts` field of a part. -/
def EmailPart.parts : EmailPart → Option (List EmailPart)
  | .mk _ _ ps => ps

mutual

/-- Embedding of `getAllParts(payload, parts = [])` (lines 247-254): if
`payload.parts` is truthy (present, even if empty) recurse into each child
pushing into the shared accumulator array; otherwise push the node itself. -/
def getAllParts : EmailPart → List EmailPart → List EmailPart
  | .mk _ _ (some ps), acc => getAllPartsList ps acc
  | .mk m b none, acc => acc ++ [.mk m b none]

/-- The `payload.parts.forEach(part => getAllParts(part, parts))` loop:
left-to-right traversal threading the shared accumulator. -/
def getAllPartsList : List EmailPart → List EmailPart → List EmailPart
  | [], acc => acc
  | p :: ps, acc => getAllPartsList ps (getAllParts p acc)

end

mutual

/-- The leaves actually emitted by the code, in depth-first left-to-right
order: a node is a leaf exactly when its `parts` field is absent. -/
def codeLeaves : EmailPart → List EmailPart
  | .mk m b none => [.mk m b none]
  | .mk _ _ (some ps) => codeLeavesList ps

/-- Concatenation of `codeLeaves` over a forest, left to right. -/
def codeLeavesList : List EmailPart → List EmailPart
  | [] => []
  | p :: ps => codeLeaves p ++ codeLeavesList ps

end

mutual

/-- The leaves in the sense of the claim's words: a node *with children*
contributes its descendants' leaves, a node *without children* (no child
nodes at all, whether the `parts` field is absent or an empty array)
contributes itself. -/
def claimLeaves : EmailPart → List EmailPart
  | .mk m b none => [.mk m b none]
  | .mk m b (some []) => [.mk m b (some [])]
  | .mk _ _ (some (p :: ps)) => claimLeavesList (p :: ps)

/-- Concatenation of `claimLeaves` over a forest, left to right. -/
def claimLeavesList : List EmailPart → List EmailPart
  | [] => []
  | p :: ps => claimLeaves p ++ claimLeavesList ps

end

/-! ## Brace-span extraction (`parseEmailWithClaude`, lines 157-170) -/

/-- The character `\x7b` (opening curly brace). -/
def openBrace : Char := '\x7b'

/-- The character `\x7d` (closing curly brace). -/
def closeBrace : Char := '\x7d'

/-- Embedding of `responseText.match(/\x7b[\s\S]*\x7d/)` on the response
text as a character list: the (leftmost, greedy) match runs from the first
opening brace to the last closing brace after it; `none` when no such span
exists. -/
def extractJsonSpan (s : List Char) : Option (List Char) :=
  let t := s.dropWhile (fun c => c != openBrace)
  let u := (t.reverse.dropWhile (fun c => c != closeBrace)).reverse
  if u.isEmpty then none else some u

/-- A draft deal as extracted from the collaborator's JSON payload
(the object shape requested in the prompt, lines 141-151); every field may
be `null`. -/
structure DealDraft where
  restaurant : Option String
  dealDescription : Option String
  originalPrice : Option Rat
  discountedPrice : Option Rat
  savings : Option Rat
  expiryDate : Option String
  dealCode : Option String
  termsAndConditions : Option String
  dealType : Option String
deriving DecidableEq

/-- Embedding of the tail of `parseEmailWithClaude` (lines 157-170): the
Claude call and `JSON.parse` are collaborators, abstracted as the response
text and a `jsonParse` function (`none` models a `JSON.parse` throw, which
the surrounding `try` catches, returning `null`).  If the brace-span match
fails the function returns `null`. -/
def parseEmailWithClaude (jsonParse : List Char → Option DealDraft)
    (responseText : List Char) : Option DealDraft :=
  match extractJsonSpan responseText with
  | some span => jsonParse span
  | none => none

/-! ## Image extraction and classification (`extractImagesFromEmail`, lines 178-244) -/

/-- JavaScript truthiness of an optional string value: present and
non-empty. -/
def truthyStr : Option String → Bool
  | some s => !s.isEmpty
  | none => false

/-- An `<img>` element as enumerated by cheerio's `$('img').each` in
document order (lines 202-206): the `src`, `alt`, `width` and `height`
attributes, each possibly absent.  `width`/`height` are carried as the
result of `parseInt` on the attribute, `none` standing for an absent
attribute or a `NaN` parse. -/
structure ImgElem where
  src : Option String
  alt : Option String
  width : Option Int
  height : Option Int
deriving DecidableEq

/-- `parseInt($(elem).attr(..)) || 0` (lines 205-206): `NaN` (absent or
unparsable attribute) collapses to `0`. -/
def parseIntOr0 : Option Int → Int
  | some n => n
  | none => 0

/-- `$(elem).attr('alt') || ''` (line 204). -/
def altOrEmpty (e : ImgElem) : String := e.alt.getD ""

/-- `alt.toLowerCase().includes('logo')`: lower-cased alt text contains the
substring `logo`. -/
def altHasLogo (e : ImgElem) : Bool :=
  decide (List.IsInfix ['l', 'o', 'g', 'o'] ((altOrEmpty e).toList.map Char.toLower))

/-- The logo test of lines 210-211:
`alt.toLowerCase().includes('logo') || width < 150 || height < 150`. -/
def isLogo (e : ImgElem) : Bool :=
  altHasLogo e || parseIntOr0 e.width < 150 || parseIntOr0 e.height < 150

/-- One entry of `dealImages`/`logoImages`.  An element candidate (lines
213-218) carries `url`, `alt`, `width`, `height`; an inline-attachment
candidate (lines 232-235) carries only `attachmentId` and `mimeType`. -/
structure ImageCandidate where
  url : Option String
  alt : Option String
  width : Option Int
  height : Option Int
  attachmentId : Option String
  mimeType : Option String
deriving DecidableEq

/-- The result object `{ dealImages, logoImages }` (lines 179-182). -/
structure Images where
  dealImages : List ImageCandidate
  logoImages : List ImageCandidate
deriving DecidableEq

/-- Character-list prefix test (used to embed `String.startsWith`). -/
def charsPrefix : List Char → List Char → Bool
  | [], _ => true
  | _ :: _, [] => false
  | a :: as, b :: bs => a == b && charsPrefix as bs

/-- `s.startsWith(pre)` on the underlying character lists. -/
def strStartsWith (s pre : String) : Bool :=
  charsPrefix pre.toList s.toList

/-- `src.startsWith('http') ? src : 'https:' + src` (line 214). -/
def resolveSrc (s : String) : String :=
  if strStartsWith s "http" then s else "https:" ++ s

/-- The `imageObj` built for an element (lines 213-218). -/
def elemCandidate (e : ImgElem) : ImageCandidate :=
  { url := some (resolveSrc (e.src.getD "")),
    alt := some (altOrEmpty e),
    width := some (parseIntOr0 e.width),
    height := some (parseIntOr0 e.height),
    attachmentId := none,
    mimeType := none }

/-- One iteration of the `$('img').each` loop (lines 202-226): elements
with a falsy `src` are pushed to neither list; otherwise the element goes
to `logoImages` when `isLogo` and to `dealImages` otherwise. -/
def classifyStep (imgs : Images) (e : ImgElem) : Images :=
  if truthyStr e.src then
    if isLogo e then { imgs with logoImages := imgs.logoImages ++ [elemCandidate e] }
    else { imgs with dealImages := imgs.dealImages ++ [elemCandidate e] }
  else imgs

/-- The whole `$('img').each` loop over the document-ordered elements. -/
def classifyImgs (elems : List ImgElem) : Images :=
  elems.foldl classifyStep { dealImages := [], logoImages := [] }

/-- The inline-attachment candidate pushed at lines 232-235. -/
def attachmentCandidate (p : EmailPart) : ImageCandidate :=
  { url := none, alt := none, width := none, height := none,
    attachmentId := p.body.attachmentId, mimeType := some p.mimeType }

/-- The attachment loop (lines 229-237): every part whose mime type starts
with `image/` and whose body has a truthy `attachmentId` is appended to
`dealImages`. -/
def appendAttachments (parts : List EmailPart) (imgs : Images) : Images :=
  parts.foldl
    (fun acc p =>
      if strStartsWith p.mimeType "image/" && truthyStr p.body.attachmentId then
        { acc with dealImages := acc.dealImages ++ [attachmentCandidate p] }
      else acc)
    imgs

/-- The HTML content assembled at lines 189-194: concatenation of the
(decoded) bodies of all `text/html` leaf parts with truthy `data`. -/
def htmlContentOf (parts : List EmailPart) : String :=
  parts.foldl
    (fun acc p =>
      if p.mimeType == "text/html" && truthyStr p.body.data then
        acc ++ (p.body.data.getD "")
      else acc)
    ""

/-- Embedding of `extractImagesFromEmail(emailData)` (lines 178-244).
Cheerio's HTML parsing is an external collaborator, abstracted as the
`htmlImgs` function from the HTML content to the document-ordered `<img>`
elements.  When the HTML content is empty the function returns early with
both lists empty (line 196), skipping the attachment loop too. -/
def extractImagesFromEmail (htmlImgs : String → List ImgElem)
    (payload : EmailPart) : Images :=
  let parts := getAllParts payload []
  let htmlContent := htmlContentOf parts
  if htmlContent.isEmpty then { dealImages := [], logoImages := [] }
  else appendAttachments parts (classifyImgs (htmlImgs htmlContent))

/-! ## Best-image selection (lines 257-294) -/

/-- `(a.width || 0) * (a.height || 0)` (lines 262-263). -/
def area (c : ImageCandidate) : Int :=
  parseIntOr0 c.width * parseIntOr0 c.height

/-- The comparator `(a, b) => bSize - aSize` (lines 261-265) sorts `a`
before `b` exactly when `area b ≤ area a`; `.sort` is stable (ES2019). -/
def areaLe (a b : ImageCandidate) : Bool :=
  decide (area b ≤ area a)

/-- Embedding of `selectBestDealImage(images)` (lines 257-268): `none` for
the `return null` on an empty list; otherwise `some` of the `url` field of
the first element of the stable descending-by-area sort (that field itself
being absent — JavaScript `undefined` — for attachment-only candidates). -/
def selectBestDealImage (images : Images) : Option (Option String) :=
  if images.dealImages.length = 0 then none
  else (images.dealImages.mergeSort areaLe).head?.map (fun c => c.url)

/-- The fallback logo table of `getDefaultLogoUrl` (lines 281-294), keyed
by exact restaurant name. -/
def defaultLogoTable : List (String × String) :=
  [("McDonald\x27s", "https://upload.wikimedia.org/wikipedia/commons/thumb/3/36/McDonald%27s_Golden_Arches.svg/200px-McDonald%27s_Golden_Arches.svg.png"),
   ("Subway", "https://upload.wikimedia.org/wikipedia/commons/thumb/5/5c/Subway_2016_logo.svg/200px-Subway_2016_logo.svg.png"),
   ("Domino\x27s", "https://upload.wikimedia.org/wikipedia/commons/thumb/7/74/Dominos_pizza_logo.svg/200px-Dominos_pizza_logo.svg.png"),
   ("Pizza Hut", "https://upload.wikimedia.org/wikipedia/en/thumb/d/d2/Pizza_Hut_logo.svg/200px-Pizza_Hut_logo.svg.png"),
   ("Taco Bell", "https://upload.wikimedia.org/wikipedia/en/thumb/b/b3/Taco_Bell_2016.svg/200px-Taco_Bell_2016.svg.png"),
   ("Chipotle", "https://upload.wikimedia.org/wikipedia/en/thumb/3/3b/Chipotle_Mexican_Grill_logo.svg/200px-Chipotle_Mexican_Grill_logo.svg.png"),
   ("KFC", "https://upload.wikimedia.org/wikipedia/en/thumb/b/bf/KFC_logo.svg/200px-KFC_logo.svg.png"),
   ("Wendy\x27s", "https://upload.wikimedia.org/wikipedia/en/thumb/5/57/Wendy%27s_full_logo_2013.svg/200px-Wendy%27s_full_logo_2013.svg.png")]

/-- `getDefaultLogoUrl(restaurantName)` (lines 281-294): table lookup,
placeholder otherwise (a `null`/absent name also falls to the
placeholder). -/
def getDefaultLogoUrl (restaurantName : Option String) : String :=
  match restaurantName.bind (fun r => (defaultLogoTable.lookup r)) with
  | some url => url
  | none => "https://via.placeholder.com/200x200?text=Logo"

/-- `selectBestLogoImage(images, restaurantName)` (lines 271-278): the
first `logoImages` candidate's `url` if any, else the fallback table. -/
def selectBestLogoImage (images : Images) (restaurantName : Option String) :
    Option String :=
  match images.logoImages with
  | [] => some (getDefaultLogoUrl restaurantName)
  | c :: _ => c.url

/-! ## Stored state: users and deals (schema comment, lines 305-347) -/

/-- The `notification_preferences` JSON object of a user row; only the
`expiringSoon` field is read by the notifier. -/
structure NotifPrefs where
  expiringSoon : Bool
deriving DecidableEq

/-- A `users` row as read by the pipeline: `id`, `email`,
`notification_preferences` (possibly null) and `gmail_tokens` (possibly
null, carried as an opaque token blob). -/
structure UserRow where
  id : Nat
  email : String
  notificationPreferences : Option NotifPrefs
  gmailTokens : Option String
deriving DecidableEq

/-- A `deals` row as read by the expiry notifier: primary key `id`, owner
`user_id`, the `is_active` and `is_notified` flags, the nullable
`expiry_date` (in days), and the display fields used to render the
notification. -/
structure StoredDeal where
  id : Nat
  userId : Nat
  isActive : Bool
  isNotified : Bool
  expiryDate : Option Int
  restaurant : String
  dealDescription : String
  savings : Rat
deriving DecidableEq

/-- `user.notification_preferences?.expiringSoon` truthiness (line 555):
false when the preferences object is null. -/
def prefEnabled (u : UserRow) : Bool :=
  match u.notificationPreferences with
  | some p => p.expiringSoon
  | none => false

/-- The deal query of lines 558-565: `user_id = uid AND is_active = true
AND is_notified = false AND expiry_date <= deadline AND expiry_date IS NOT
NULL` (a null expiry date fails the filter). -/
def dealMatches (deadline : Int) (uid : Nat) (d : StoredDeal) : Bool :=
  d.userId == uid && d.isActive && !d.isNotified &&
    (match d.expiryDate with
     | some e => decide (e ≤ deadline)
     | none => false)

/-- A notification actually handed to the mail collaborator: the
recipient's user id and email, and the list of deals it names. -/
structure SentNotification where
  userId : Nat
  email : String
  deals : List StoredDeal
deriving DecidableEq

/-- The observable outcome of one notifier sweep: the final `deals` table,
the notifications sent (in order), and whether the sweep ran to completion
(`ok = false` when a thrown error was caught by the sweep-level `catch`,
line 583, aborting the remaining users). -/
structure SweepResult where
  deals : List StoredDeal
  sent : List SentNotification
  ok : Bool
deriving DecidableEq

/-- `{ ...d, is_notified: true }`: the effect of the update at lines
575-578 on one row. -/
def setNotified (d : StoredDeal) : StoredDeal :=
  { d with isNotified := true }

/-- The batched update `update({ is_notified: true }).in('id', dealIds)`
(lines 574-578): every row whose id is in the set is marked notified. -/
def markNotified (ids : List Nat) (ds : List StoredDeal) : List StoredDeal :=
  ds.map (fun d => if d.id ∈ ids then setNotified d else d)

/-- The per-user loop of `checkAndNotifyExpiringDeals` (lines 554-582).
`sendOk uid` models whether the `sendMail` call for that user succeeds; a
failed send throws, and — there being no per-user `try` — the exception is
caught only by the whole-function `catch`, so the sweep stops, skipping
that user's update and all remaining users. -/
def sweepGo (deadline : Int) (sendOk : Nat → Bool) :
    List UserRow → List StoredDeal → List SentNotification → SweepResult
  | [], ds, sent => { deals := ds, sent := sent, ok := true }
  | u :: rest, ds, sent =>
    if prefEnabled u then
      let matching := ds.filter (dealMatches deadline u.id)
      if matching.isEmpty then sweepGo deadline sendOk rest ds sent
      else if sendOk u.id then
        sweepGo deadline sendOk rest (markNotified (matching.map (fun d => d.id)) ds)
          (sent ++ [{ userId := u.id, email := u.email, deals := matching }])
      else { deals := ds, sent := sent, ok := false }
    else sweepGo deadline sendOk rest ds sent

/-- Embedding of `checkAndNotifyExpiringDeals()` (lines 542-586) over the
stored users and deals: `threeDaysFromNow` is `now + 3` (days), and the
users are processed in table order. -/
def checkAndNotifyExpiringDeals (users : List UserRow) (deals : List StoredDeal)
    (now : Int) (sendOk : Nat → Bool) : SweepResult :=
  sweepGo (now + 3) sendOk users deals []

/-! ## The scan pipeline (`/api/scan-deals`, lines 593-675, and `saveDeal`,
lines 379-403) -/

/-- The `dealData` object literal passed to `saveDeal` (lines 642-655):
the draft fields plus the source email id and the selected image and logo
URLs. -/
structure DealData where
  emailId : String
  restaurant : Option String
  dealDescription : Option String
  originalPrice : Option Rat
  discountedPrice : Option Rat
  savings : Option Rat
  expiryDate : Option String
  dealCode : Option String
  termsAndConditions : Option String
  dealType : Option String
  imageUrl : Option String
  logoUrl : Option String
deriving DecidableEq

/-- A persisted `deals` row (schema comment, lines 315-334): the columns
declared `NOT NULL` are non-optional fields. -/
structure DealRow where
  userId : Nat
  emailId : String
  restaurant : String
  dealDescription : String
  originalPrice : Option Rat
  discountedPrice : Option Rat
  savings : Rat
  expiryDate : Option String
  dealCode : Option String
  termsAndConditions : Option String
  dealType : Option String
  imageUrl : Option String
  logoUrl : Option String
  isActive : Bool
  isNotified : Bool
deriving DecidableEq

/-- Embedding of `saveDeal(userId, dealData)` (lines 379-403): the insert
succeeds iff the schema's `NOT NULL` columns (`email_id`, `restaurant`,
`deal_description`, `savings`) receive non-null values; on a constraint
violation supabase reports an error and `saveDeal` throws (`none`).
`is_active` is set true explicitly, `is_notified` defaults to false. -/
def saveDeal (userId : Nat) (d : DealData) : Option DealRow :=
  match d.restaurant, d.dealDescription, d.savings with
  | some r, some desc, some sv =>
    some { userId := userId, emailId := d.emailId, restaurant := r,
           dealDescription := desc, originalPrice := d.originalPrice,
           discountedPrice := d.discountedPrice, savings := sv,
           expiryDate := d.expiryDate, dealCode := d.dealCode,
           termsAndConditions := d.termsAndConditions, dealType := d.dealType,
           imageUrl := d.imageUrl, logoUrl := d.logoUrl,
           isActive := true, isNotified := false }
  | _, _, _ => none

/-- One fetched Gmail message as consumed by the scan loop: its `id` and
its `payload` part tree (headers only feed the collaborator prompt). -/
structure Email where
  id : String
  payload : EmailPart

/-- The plain-text content assembled at lines 616-623: concatenation of
the (decoded) bodies of all `text/plain` leaf parts with truthy `data`. -/
def plainContentOf (parts : List EmailPart) : String :=
  parts.foldl
    (fun acc p =>
      if p.mimeType == "text/plain" && truthyStr p.body.data then
        acc ++ (p.body.data.getD "")
      else acc)
    ""

/-- The `dealData` object assembled for one email from the parsed draft
and the image selections (lines 636-655).  `selectBestDealImage`'s outer
`none` (`null`) and inner `none` (`undefined`) both store a null
`image_url`. -/
def assembleDealData (htmlImgs : String → List ImgElem) (email : Email)
    (dealInfo : DealDraft) : DealData :=
  let images := extractImagesFromEmail htmlImgs email.payload
  { emailId := email.id,
    restaurant := dealInfo.restaurant,
    dealDescription := dealInfo.dealDescription,
    originalPrice := dealInfo.originalPrice,
    discountedPrice := dealInfo.discountedPrice,
    savings := dealInfo.savings,
    expiryDate := dealInfo.expiryDate,
    dealCode := dealInfo.dealCode,
    termsAndConditions := dealInfo.termsAndConditions,
    dealType := dealInfo.dealType,
    imageUrl := (selectBestDealImage images).bind (fun u => u),
    logoUrl := selectBestLogoImage images dealInfo.restaurant }

/-- The `dealData` object the body of the scan loop passes to the storage
insert for one email, if it reaches that call (lines 613-655): `none` when
the email is skipped earlier (empty plain-text content, line 625, or a
null parse result, line 634).  The extraction collaborator is abstracted
as `parse`. -/
def scanEmailInsertPayload (parse : Email → Option DealDraft)
    (htmlImgs : String → List ImgElem) (email : Email) : Option DealData :=
  let parts := getAllParts email.payload []
  if (plainContentOf parts).isEmpty then none
  else
    match parse email with
    | none => none
    | some dealInfo => some (assembleDealData htmlImgs email dealInfo)

/-- The saved deal produced by one iteration of the scan loop: the insert
payload, if reached, run through `saveDeal`; any throw inside the
iteration is caught by the per-email `catch` (lines 659-662), which
`continue`s, so a failed iteration simply contributes nothing. -/
def scanEmailSaved (parse : Email → Option DealDraft)
    (htmlImgs : String → List ImgElem) (userId : Nat) (email : Email) :
    Option DealRow :=
  (scanEmailInsertPayload parse htmlImgs email).bind (saveDeal userId)

/-- The `processedDeals` list accumulated by the scan loop over all
fetched emails (lines 610-663). -/
def scanLoop (parse : Email → Option DealDraft)
    (htmlImgs : String → List ImgElem) (userId : Nat)
    (emails : List Email) : List DealRow :=
  emails.filterMap (scanEmailSaved parse htmlImgs userId)

/-- Request-level outcomes of `POST /api/scan-deals`. -/
inductive ScanOutcome where
  | unauthenticated
  | ok (dealsProcessed : Nat) (deals : List DealRow)
deriving DecidableEq

/-- Embedding of the `/api/scan-deals` handler (lines 593-675): the
pre-batch user lookup (missing user or missing tokens returns the 401,
lines 598-601) guards the batch; afterwards the per-email loop runs with
per-item error recovery. -/
def scanDealsEndpoint (user : Option UserRow) (emails : List Email)
    (parse : Email → Option DealDraft) (htmlImgs : String → List ImgElem) :
    ScanOutcome :=
  match user with
  | none => .unauthenticated
  | some u =>
    if u.gmailTokens.isNone then .unauthenticated
    else
      let processed := scanLoop parse htmlImgs u.id emails
      .ok processed.length processed

/-! ## Specification-side definitions (for refinement statements) -/

/-- The specification's words for best-deal-image selection, stated
directly as a recursive rule: the candidate with the largest
`width × height` product, ties broken in favour of the first-encountered
candidate; `none` on the empty list.  To be compared with the code's
`selectBestDealImage`. -/
def firstMaxByArea : List ImageCandidate → Option ImageCandidate
  | [] => none
  | c :: cs =>
    match firstMaxByArea cs with
    | none => some c
    | some m => if area m > area c then some m else some c

/-- The specification's words for which deals one complete successful
sweep notifies: a deal is notified exactly when some user with the
"expiring soon" preference enabled owns it and it matches the expiry
query. -/
def notifiedInSweep (deadline : Int) (users : List UserRow) (d : StoredDeal) : Bool :=
  users.any (fun u => prefEnabled u && dealMatches deadline u.id d)

/-- The specification's words for the final deals table after one complete
successful sweep: exactly the deals in some enabled user's matching set
are marked notified; every other deal is unchanged. -/
def sweepFinalDealsSpec (deadline : Int) (users : List UserRow)
    (deals : List StoredDeal) : List StoredDeal :=
  deals.map (fun d => if notifiedInSweep deadline users d then setNotified d else d)

/-- The specification's words for the notifications of one complete
successful sweep: one notification per enabled user with a non-empty
matching set, in user order, naming exactly the matching deals. -/
def sweepNotifsSpec (deadline : Int) (users : List UserRow)
    (deals : List StoredDeal) : List SentNotification :=
  users.filterMap (fun u =>
    if prefEnabled u && !(deals.filter (dealMatches deadline u.id)).isEmpty then
      some { userId := u.id, email := u.email,
             deals := deals.filter (dealMatches deadline u.id) }
    else none)

/-! ## Concrete fixtures used by witnesses and counterexamples -/

/-- A 200×200 image element with non-logo alt text but no `src`
attribute. -/
def srclessElem : ImgElem :=
  { src := none, alt := some "big banner", width := some 200, height := some 200 }

/-- The spec's worked example, deal A: expires in 2 days, not yet
notified. -/
def dealA : StoredDeal :=
  ⟨1, 1, true, false, some 2, "Subway", "two footlongs for one", 6⟩

/-- The spec's worked example, deal B: expires in 2 days, already
notified. -/
def dealB : StoredDeal :=
  ⟨2, 1, true, true, some 2, "KFC", "half-price bucket", 8⟩

/-- The spec's worked example, deal C: expires in 10 days, not yet
notified. -/
def dealC : StoredDeal :=
  ⟨3, 1, true, false, some 10, "Chipotle", "free drink", 3⟩

/-- A user with the "expiring soon" preference enabled. -/
def userOne : UserRow := ⟨1, "one@example.com", some ⟨true⟩, none⟩

/-- A second enabled user, owning deal `dealTwo`. -/
def userTwo : UserRow := ⟨2, "two@example.com", some ⟨true⟩, none⟩

/-- A matching, unnotified deal owned by `userTwo`. -/
def dealTwo : StoredDeal :=
  ⟨4, 2, true, false, some 1, "Wendy\x27s", "free fries", 2⟩

/-- A send effect that fails exactly for user id 1. -/
def sendFailsForUserOne : Nat → Bool := fun uid => uid != 1

/-- A draft whose `restaurant` and `dealDescription` are null, as produced
by a syntactically valid but incomplete extraction payload. -/
def nullFieldsDraft : DealDraft :=
  { restaurant := none, dealDescription := none, originalPrice := none,
    discountedPrice := none, savings := some 5, expiryDate := none,
    dealCode := none, termsAndConditions := none, dealType := some "BOGO" }

/-- A complete draft, every required field present. -/
def fullDraft : DealDraft :=
  { restaurant := some "KFC", dealDescription := some "half-price bucket",
    originalPrice := some 16, discountedPrice := some 8, savings := some 8,
    expiryDate := some "2024-02-20", dealCode := some "SAVE50",
    termsAndConditions := none, dealType := some "PERCENTAGE_OFF" }

/-- A one-part plain-text promotional email. -/
def plainEmail : Email :=
  ⟨"msg-1", .mk "text/plain" ⟨some "20 percent off today", none⟩ none⟩

/-- An extraction collaborator that always yields `nullFieldsDraft`. -/
def parseToNullFields : Email → Option DealDraft := fun _ => some nullFieldsDraft

/-- An extraction collaborator that always yields `fullDraft`. -/
def parseToFullDraft : Email → Option DealDraft := fun _ => some fullDraft

/-- An HTML parser collaborator that finds no image elements. -/
def noImgElems : String → List ImgElem := fun _ => []

/-- A multipart email whose payload holds an HTML leaf and an inline
image-attachment leaf. -/
def attachmentEmailPayload : EmailPart :=
  .mk "multipart/mixed" ⟨none, none⟩
    (some [.mk "text/html" ⟨some "<p>deal</p>", none⟩ none,
           .mk "image/png" ⟨none, some "att-1"⟩ none])

/-- A small 10×10 deal-image candidate. -/
def smallCand : ImageCandidate :=
  { url := some "https://imgs.example/small.png", alt := some "thumb",
    width := some 10, height := some 10, attachmentId := none, mimeType := none }

/-- A large 300×200 deal-image candidate. -/
def largeCand : ImageCandidate :=
  { url := some "https://imgs.example/hero.png", alt := some "hero",
    width := some 300, height := some 200, attachmentId := none, mimeType := none }

/-- An attachment-only deal-image candidate (no url, width or height). -/
def attachCand : ImageCandidate :=
  { url := none, alt := none, width := none, height := none,
    attachmentId := some "att-1", mimeType := some "image/png" }

/-- A fully populated insert payload. -/
def fullDealData : DealData :=
  { emailId := "msg-1", restaurant := some "KFC",
    dealDescription := some "half-price bucket", originalPrice := some 16,
    discountedPrice := some 8, savings := some 8,
    expiryDate := some "2024-02-20", dealCode := some "SAVE50",
    termsAndConditions := none, dealType := some "PERCENTAGE_OFF",
    imageUrl := none, logoUrl := some "https://logos.example/kfc.png" }

/-- The row `saveDeal 7 fullDealData` inserts. -/
def fullDealRow : DealRow :=
  { userId := 7, emailId := "msg-1", restaurant := "KFC",
    dealDescription := "half-price bucket", originalPrice := some 16,
    discountedPrice := some 8, savings := 8,
    expiryDate := some "2024-02-20", dealCode := some "SAVE50",
    termsAndConditions := none, dealType := some "PERCENTAGE_OFF",
    imageUrl := none, logoUrl := some "https://logos.example/kfc.png",
    isActive := true, isNotified := false }

/-- A response-text fixture: prose, then a JSON object span, then prose. -/
def wrappedPre : List Char := ['H', 'e', 'r', 'e', ':', ' ']

/-- The interior of the JSON object span of the fixture. -/
def wrappedMid : List Char := ['"', 'x', '"', ':', '1']

/-- The prose following the JSON object span of the fixture. -/
def wrappedPost : List Char := [' ', 'E', 'n', 'j', 'o', 'y', '.']

/-- A `JSON.parse` collaborator accepting exactly the fixture's span. -/
def parseFixtureSpan : List Char → Option DealDraft := fun s =>
  if s = openBrace :: wrappedMid ++ [closeBrace] then some fullDraft else none

/-! ## Theorems: the part flattener (claim C9) -/

mutual

theorem getAllParts_eq_codeLeaves :
    ∀ (p : EmailPart) (acc : List EmailPart),
      getAllParts p acc = acc ++ codeLeaves p
  | .mk m b none, acc => by
    simp [getAllParts, codeLeaves]
  | .mk m b (some ps), acc => by
    rw [getAllParts, codeLeaves]
    exact getAllPartsList_eq_codeLeavesList ps acc

theorem getAllPartsList_eq_codeLeavesList :
    ∀ (ps : List EmailPart) (acc : List EmailPart),
      getAllPartsList ps acc = acc ++ codeLeavesList ps
  | [], acc => by simp [getAllPartsList, codeLeavesList]
  | p :: ps, acc => by
    rw [getAllPartsList, codeLeavesList,
      getAllPartsList_eq_codeLeavesList ps, getAllParts_eq_codeLeaves p,
      List.append_assoc]

end

mutual

theorem codeLeaves_all_partsNone :
    ∀ p : EmailPart, ((codeLeaves p).all fun q => q.parts.isNone) = true
  | .mk m b none => by simp [codeLeaves, EmailPart.parts]
  | .mk m b (some ps) => by
    rw [codeLeaves]
    exact codeLeavesList_all_partsNone ps

theorem codeLeavesList_all_partsNone :
    ∀ ps : List EmailPart, ((codeLeavesList ps).all fun q => q.parts.isNone) = true
  | [] => by simp [codeLeavesList]
  | p :: ps => by
    rw [codeLeavesList, List.all_append, codeLeaves_all_partsNone p,
      codeLeavesList_all_partsNone ps]
    rfl

end

/-- C9 (counterexample): the claim reads "a node without children
contributes itself as one leaf", but a node whose `parts` field is a
present-but-empty array — a node with no child nodes — is traversed (the
empty array is truthy) and contributes nothing, so the flattener does not
return the leaves of the tree in the claim's sense. -/
theorem getAllParts_ne_claimLeaves_on_empty_parts :
    getAllParts (.mk "multipart/mixed" ⟨none, none⟩ (some [])) [] = [] ∧
    claimLeaves (.mk "multipart/mixed" ⟨none, none⟩ (some [])) =
      [.mk "multipart/mixed" ⟨none, none⟩ (some [])] ∧
    getAllParts (.mk "multipart/mixed" ⟨none, none⟩ (some [])) [] ≠
      claimLeaves (.mk "multipart/mixed" ⟨none, none⟩ (some [])) := by
  refine ⟨rfl, rfl, ?_⟩
  intro h
  exact Nat.zero_ne_one (congrArg List.length h)

/-- C9 (amended): the flattener returns, in depth-first left-to-right
order, exactly the nodes whose `parts` field is absent; a node with a
present `parts` array (even an empty one) is traversed and contributes
only its descendants' leaves, never its own body, and every emitted node
has an absent `parts` field (so no node is both traversed and emitted). -/
theorem getAllParts_returns_codeLeaves (p : EmailPart) :
    getAllParts p [] = codeLeaves p ∧
    ((codeLeaves p).all fun q => q.parts.isNone) = true :=
  ⟨by simpa using getAllParts_eq_codeLeaves p [], codeLeaves_all_partsNone p⟩

/-! ## Theorems: brace-span extraction (claim C4) -/

theorem extractJsonSpan_wrapped (pre mid post : List Char)
    (hpre : openBrace ∉ pre) (hpost : closeBrace ∉ post) :
    extractJsonSpan (pre ++ (openBrace :: mid ++ [closeBrace]) ++ post)
      = some (openBrace :: mid ++ [closeBrace]) := by
  have hp : ∀ a ∈ pre, ((fun c => c != openBrace) a) = true := by
    intro a ha
    simp only [bne_iff_ne, ne_eq]
    exact fun h => hpre (h ▸ ha)
  have hsplit : pre ++ (openBrace :: mid ++ [closeBrace]) ++ post
      = pre ++ (openBrace :: ((mid ++ [closeBrace]) ++ post)) := by simp
  have h1 : (pre ++ (openBrace :: mid ++ [closeBrace]) ++ post).dropWhile
      (fun c => c != openBrace) = openBrace :: ((mid ++ [closeBrace]) ++ post) := by
    rw [hsplit, List.dropWhile_append_of_pos hp, List.dropWhile_cons]
    simp
  have hq : ∀ a ∈ post.reverse, ((fun c => c != closeBrace) a) = true := by
    intro a ha
    simp only [List.mem_reverse] at ha
    simp only [bne_iff_ne, ne_eq]
    exact fun h => hpost (h ▸ ha)
  have h2 : (openBrace :: ((mid ++ [closeBrace]) ++ post)).reverse
      = post.reverse ++ (closeBrace :: (mid.reverse ++ [openBrace])) := by simp
  have h3 : ((pre ++ (openBrace :: mid ++ [closeBrace]) ++ post).dropWhile
        (fun c => c != openBrace)).reverse.dropWhile (fun c => c != closeBrace)
      = closeBrace :: (mid.reverse ++ [openBrace]) := by
    rw [h1, h2, List.dropWhile_append_of_pos hq, List.dropWhile_cons]
    simp
  simp only [extractJsonSpan, h3]
  simp

theorem extractJsonSpan_some_decomp (s u : List Char)
    (h : extractJsonSpan s = some u) :
    ∃ l₁ l₂ l₃, s = l₁ ++ openBrace :: l₂ ++ closeBrace :: l₃ := by
  have hvne : (s.dropWhile (fun c => c != openBrace)).reverse.dropWhile
      (fun c => c != closeBrace) ≠ [] := by
    intro hnil
    simp only [extractJsonSpan, hnil] at h
    simp at h
  have hs : s.takeWhile (fun c => c != openBrace)
      ++ s.dropWhile (fun c => c != openBrace) = s :=
    List.takeWhile_append_dropWhile _ _
  have hthead : ∀ b t', s.dropWhile (fun c => c != openBrace) = b :: t' →
      b = openBrace := by
    intro b t' hbt
    have hmatch := List.head?_dropWhile_not (fun c => c != openBrace) s
    rw [hbt] at hmatch
    simpa using hmatch
  have htv : ((s.dropWhile (fun c => c != openBrace)).reverse.takeWhile
        (fun c => c != closeBrace))
      ++ ((s.dropWhile (fun c => c != openBrace)).reverse.dropWhile
        (fun c => c != closeBrace))
      = (s.dropWhile (fun c => c != openBrace)).reverse :=
    List.takeWhile_append_dropWhile _ _
  obtain ⟨c, w, hcw⟩ := List.exists_cons_of_ne_nil hvne
  have hceq : c = closeBrace := by
    have hmatch := List.head?_dropWhile_not (fun c => c != closeBrace)
      (s.dropWhile (fun c => c != openBrace)).reverse
    rw [hcw] at hmatch
    simpa using hmatch
  have ht2 : ((s.dropWhile (fun c => c != openBrace)).reverse.dropWhile
        (fun c => c != closeBrace)).reverse
      ++ ((s.dropWhile (fun c => c != openBrace)).reverse.takeWhile
        (fun c => c != closeBrace)).reverse
      = s.dropWhile (fun c => c != openBrace) := by
    have hrev := congrArg List.reverse htv
    rw [List.reverse_append] at hrev
    rw [List.reverse_reverse] at hrev
    exact hrev
  rw [hcw, hceq] at ht2
  generalize hR : ((s.dropWhile (fun c => c != openBrace)).reverse.takeWhile
      (fun c => c != closeBrace)).reverse = R at ht2
  generalize hL : s.takeWhile (fun c => c != openBrace) = L at hs
  simp only [List.reverse_cons] at ht2
  rcases hw : w.reverse with _ | ⟨x, xs⟩
  · rw [hw] at ht2
    simp only [List.nil_append] at ht2
    have hbad := hthead closeBrace R ht2.symm
    simp [openBrace, closeBrace] at hbad
  · rw [hw] at ht2
    have hT : s.dropWhile (fun c => c != openBrace)
        = x :: (xs ++ closeBrace :: R) := by
      rw [← ht2]
      simp
    have hx : x = openBrace := hthead x _ hT
    refine ⟨L, xs, R, ?_⟩
    rw [← hs, hT, hx]
    simp

/-- C4: on a response text consisting of a single well-formed JSON object
(a brace-delimited span the `JSON.parse` collaborator accepts) surrounded
by prose containing no brace characters, `parseEmailWithClaude` returns
exactly the result of parsing the embedded object alone; on a text with no
`brace ... brace` span it returns `none`; and when the matched span fails
to parse it returns `none` (the `JSON.parse` throw is caught). -/
theorem parseEmailWithClaude_spec (jsonParse : List Char → Option DealDraft)
    (text pre mid post : List Char) (d : DealDraft) :
    (openBrace ∉ pre → closeBrace ∉ pre → openBrace ∉ post → closeBrace ∉ post →
      jsonParse (openBrace :: mid ++ [closeBrace]) = some d →
      parseEmailWithClaude jsonParse (pre ++ (openBrace :: mid ++ [closeBrace]) ++ post)
        = some d) ∧
    ((¬ ∃ l₁ l₂ l₃, text = l₁ ++ openBrace :: l₂ ++ closeBrace :: l₃) →
      parseEmailWithClaude jsonParse text = none) ∧
    (∀ span, extractJsonSpan text = some span → jsonParse span = none →
      parseEmailWithClaude jsonParse text = none) := by
  refine ⟨?_, ?_, ?_⟩
  · intro h1 _ _ h4 hparse
    unfold parseEmailWithClaude
    rw [extractJsonSpan_wrapped pre mid post h1 h4]
    exact hparse
  · intro hno
    unfold parseEmailWithClaude
    rcases hspan : extractJsonSpan text with _ | u
    · rfl
    · exact absurd (extractJsonSpan_some_decomp text u hspan) hno
  · intro span hspan hfail
    unfold parseEmailWithClaude
    rw [hspan]
    exact hfail

/-! ## Theorems: best-deal-image selection (claims C7 and C10) -/

theorem areaLe_trans : ∀ a b c : ImageCandidate,
    areaLe a b → areaLe b c → areaLe a c := by
  intro a b c hab hbc
  simp only [areaLe, decide_eq_true_eq] at *
  exact le_trans hbc hab

theorem areaLe_total : ∀ a b : ImageCandidate, areaLe a b || areaLe b a := by
  intro a b
  simp only [areaLe]
  rcases Int.le_total (area a) (area b) with h | h <;> simp [h]

theorem firstMaxByArea_cons_none (c : ImageCandidate) (cs : List ImageCandidate)
    (h : firstMaxByArea cs = none) : firstMaxByArea (c :: cs) = some c := by
  rw [firstMaxByArea, h]

theorem firstMaxByArea_cons_some_gt (c : ImageCandidate) (cs : List ImageCandidate)
    (m : ImageCandidate) (h : firstMaxByArea cs = some m) (hgt : area m > area c) :
    firstMaxByArea (c :: cs) = some m := by
  rw [firstMaxByArea, h]
  exact if_pos hgt

theorem firstMaxByArea_cons_some_le (c : ImageCandidate) (cs : List ImageCandidate)
    (m : ImageCandidate) (h : firstMaxByArea cs = some m) (hle : ¬ area m > area c) :
    firstMaxByArea (c :: cs) = some c := by
  rw [firstMaxByArea, h]
  exact if_neg hle

theorem firstMaxByArea_ne_none : ∀ {l : List ImageCandidate}, l ≠ [] →
    firstMaxByArea l ≠ none := by
  intro l hne
  rcases l with _ | ⟨a, t⟩
  · exact absurd rfl hne
  · rcases ht : firstMaxByArea t with _ | m
    · rw [firstMaxByArea_cons_none a t ht]
      simp
    · by_cases hgt : area m > area a
      · rw [firstMaxByArea_cons_some_gt a t m ht hgt]
        simp
      · rw [firstMaxByArea_cons_some_le a t m ht hgt]
        simp

theorem firstMaxByArea_mem : ∀ {l : List ImageCandidate} {c : ImageCandidate},
    firstMaxByArea l = some c → c ∈ l := by
  intro l
  induction l with
  | nil => intro c h; simp [firstMaxByArea] at h
  | cons a t ih =>
    intro c h
    rcases ht : firstMaxByArea t with _ | m
    · rw [firstMaxByArea_cons_none a t ht] at h
      simp at h
      simp [h]
    · by_cases hgt : area m > area a
      · rw [firstMaxByArea_cons_some_gt a t m ht hgt] at h
        simp at h
        exact List.mem_cons_of_mem a (h ▸ ih ht)
      · rw [firstMaxByArea_cons_some_le a t m ht hgt] at h
        simp at h
        simp [h]

theorem mergeSort_head?_eq_firstMaxByArea (l : List ImageCandidate) :
    (l.mergeSort areaLe).head? = firstMaxByArea l := by
  induction l with
  | nil => simp [firstMaxByArea]
  | cons a t ih =>
    obtain ⟨l₁, l₂, h1, h2, h3⟩ := List.mergeSort_cons areaLe_trans areaLe_total a t
    rcases l₁ with _ | ⟨c, cs⟩
    · simp only [List.nil_append] at h1 h2
      rw [h1]
      rw [h2] at ih
      have hsorted := List.sorted_mergeSort areaLe_trans areaLe_total (a :: t)
      rw [h1] at hsorted
      rcases l₂ with _ | ⟨m, ms⟩
      · rw [firstMaxByArea, ← ih]
        simp
      · have hma := (List.pairwise_cons.mp hsorted).1 m (by simp)
        simp only [areaLe, decide_eq_true_eq] at hma
        rw [firstMaxByArea_cons_some_le a t m (by rw [← ih]; rfl) (by omega)]
        simp
    · rw [h1]
      rw [h2] at ih
      have hca := h3 c (by simp)
      simp only [areaLe, Bool.not_eq_true', decide_eq_false_iff_not] at hca
      have hfm : firstMaxByArea t = some c := by
        rw [← ih]
        rfl
      rw [firstMaxByArea_cons_some_gt a t c hfm (by omega)]
      simp

theorem firstMaxByArea_of_decomp :
    ∀ (l₁ : List ImageCandidate) (c : ImageCandidate) (l₂ : List ImageCandidate),
    (∀ d ∈ l₁, area d < area c) → (∀ d ∈ l₂, area d ≤ area c) →
    firstMaxByArea (l₁ ++ c :: l₂) = some c := by
  intro l₁
  induction l₁ with
  | nil =>
    intro c l₂ _ hle
    rw [List.nil_append]
    rcases ht : firstMaxByArea l₂ with _ | m
    · exact firstMaxByArea_cons_none c l₂ ht
    · have hm : area m ≤ area c := hle m (firstMaxByArea_mem ht)
      exact firstMaxByArea_cons_some_le c l₂ m ht (by omega)
  | cons d t ih =>
    intro c l₂ hlt hle
    rw [List.cons_append]
    have hrec := ih c l₂ (fun x hx => hlt x (by simp [hx])) hle
    exact firstMaxByArea_cons_some_gt d (t ++ c :: l₂) c hrec (hlt d (by simp))

theorem firstMaxByArea_isMax : ∀ {l : List ImageCandidate} {c : ImageCandidate},
    firstMaxByArea l = some c → ∀ d ∈ l, area d ≤ area c := by
  intro l
  induction l with
  | nil => intro c h; simp [firstMaxByArea] at h
  | cons a t ih =>
    intro c h d hd
    rcases ht : firstMaxByArea t with _ | m
    · rcases t with _ | ⟨x, xs⟩
      · rw [firstMaxByArea_cons_none a [] ht] at h
        simp at h hd
        rw [hd, h]
      · exact absurd ht (firstMaxByArea_ne_none (by simp))
    · by_cases hgt : area m > area a
      · rw [firstMaxByArea_cons_some_gt a t m ht hgt] at h
        simp at h
        subst h
        rcases List.mem_cons.mp hd with hda | hdt
        · rw [hda]; omega
        · exact ih ht d hdt
      · rw [firstMaxByArea_cons_some_le a t m ht hgt] at h
        simp at h
        subst h
        rcases List.mem_cons.mp hd with hda | hdt
        · rw [hda]
        · have := ih ht d hdt
          omega

theorem eq_of_mem_pairwise_area_ne :
    ∀ {l : List ImageCandidate}
      (_ : l.Pairwise (fun a b => area a ≠ area b)) {x y : ImageCandidate},
      x ∈ l → y ∈ l → area x = area y → x = y := by
  intro l
  induction l with
  | nil => intro _ x y hx; simp at hx
  | cons a t ih =>
    intro hp x y hx hy hxy
    have hp' := List.pairwise_cons.mp hp
    rcases List.mem_cons.mp hx with hxa | hxt <;>
      rcases List.mem_cons.mp hy with hya | hyt
    · rw [hxa, hya]
    · exact absurd hxy (hxa ▸ hp'.1 y hyt)
    · exact absurd hxy.symm (hya ▸ hp'.1 x hxt)
    · exact ih hp'.2 hxt hyt hxy

theorem selectBestDealImage_eq_firstMaxByArea (imgs : Images) :
    selectBestDealImage imgs = (firstMaxByArea imgs.dealImages).map (fun c => c.url) := by
  unfold selectBestDealImage
  rcases h : imgs.dealImages with _ | ⟨a, t⟩
  · simp [firstMaxByArea]
  · rw [if_neg (by simp)]
    rw [mergeSort_head?_eq_firstMaxByArea]

/-- C7: best-deal-image selection returns `none` on an empty candidate
list; otherwise it returns the `url` of the candidate with the largest
`width × height` area (missing dimensions counting as 0), ties broken in
favour of the first-encountered candidate (stated by decomposing the list
around the first maximum); and on lists without area ties the selection
is invariant under permutation of the input. -/
theorem selectBestDealImage_spec (imgs : Images) :
    (imgs.dealImages = [] → selectBestDealImage imgs = none) ∧
    (∀ (l₁ : List ImageCandidate) (c : ImageCandidate) (l₂ : List ImageCandidate),
      imgs.dealImages = l₁ ++ c :: l₂ →
      (∀ d ∈ l₁, area d < area c) → (∀ d ∈ l₂, area d ≤ area c) →
      selectBestDealImage imgs = some c.url) ∧
    (∀ imgs' : Images, imgs'.dealImages.Perm imgs.dealImages →
      imgs.dealImages.Pairwise (fun a b => area a ≠ area b) →
      selectBestDealImage imgs' = selectBestDealImage imgs) := by
  refine ⟨?_, ?_, ?_⟩
  · intro h
    rw [selectBestDealImage_eq_firstMaxByArea, h]
    rfl
  · intro l₁ c l₂ hdec hlt hle
    rw [selectBestDealImage_eq_firstMaxByArea, hdec,
      firstMaxByArea_of_decomp l₁ c l₂ hlt hle]
    rfl
  · intro imgs' hperm hpair
    rw [selectBestDealImage_eq_firstMaxByArea, selectBestDealImage_eq_firstMaxByArea]
    rcases h : imgs.dealImages with _ | ⟨a, t⟩
    · rw [h] at hperm
      rw [List.perm_nil.mp hperm]
    · rw [← h]
      have hne : imgs.dealImages ≠ [] := by rw [h]; simp
      have hne' : imgs'.dealImages ≠ [] := by
        intro h0
        rw [h0] at hperm
        exact hne (List.nil_perm.mp hperm)
      rcases hm : firstMaxByArea imgs.dealImages with _ | m
      · exact absurd hm (firstMaxByArea_ne_none hne)
      · rcases hm' : firstMaxByArea imgs'.dealImages with _ | m'
        · exact absurd hm' (firstMaxByArea_ne_none hne')
        · have hmem : m ∈ imgs.dealImages := firstMaxByArea_mem hm
          have hmem' : m' ∈ imgs.dealImages := hperm.subset (firstMaxByArea_mem hm')
          have h1 : area m' ≤ area m := firstMaxByArea_isMax hm m' hmem'
          have h2 : area m ≤ area m' :=
            firstMaxByArea_isMax hm' m (hperm.mem_iff.mpr hmem)
          have : m' = m := eq_of_mem_pairwise_area_ne hpair hmem' hmem (by omega)
          rw [this]

/-- C10: when the deal-image list is non-empty but every candidate is an
inline-attachment candidate (an `attachmentId` but no `url`, `width` or
`height`), selection still picks the first candidate — whose `url` field
is absent — so a non-empty candidate list yields an absent selected URL
(`some none`, the JavaScript `undefined`), not the attachment reference or
any fallback. -/
theorem selectBestDealImage_attachment_only (imgs : Images)
    (hne : imgs.dealImages ≠ [])
    (hall : ∀ c ∈ imgs.dealImages,
      c.url = none ∧ c.width = none ∧ c.height = none ∧ c.attachmentId.isSome) :
    selectBestDealImage imgs = some none := by
  rw [selectBestDealImage_eq_firstMaxByArea]
  rcases hm : firstMaxByArea imgs.dealImages with _ | m
  · exact absurd hm (firstMaxByArea_ne_none hne)
  · have := (hall m (firstMaxByArea_mem hm)).1
    simp [this]

/-! ## Theorems: image classification (claim C6) -/

theorem classifyImgs_foldl (elems : List ImgElem) : ∀ imgs : Images,
    elems.foldl classifyStep imgs =
      { dealImages := imgs.dealImages
          ++ (elems.filter (fun e => truthyStr e.src && !isLogo e)).map elemCandidate,
        logoImages := imgs.logoImages
          ++ (elems.filter (fun e => truthyStr e.src && isLogo e)).map elemCandidate } := by
  induction elems with
  | nil => intro imgs; simp
  | cons e es ih =>
    intro imgs
    rw [List.foldl_cons, ih]
    unfold classifyStep
    by_cases hsrc : truthyStr e.src
    · by_cases hlogo : isLogo e
      · simp [List.filter_cons, hsrc, hlogo]
      · simp [List.filter_cons, hsrc, hlogo]
    · simp [List.filter_cons, hsrc]

theorem classify_three_way_count (elems : List ImgElem) :
    (elems.filter (fun e => !truthyStr e.src)).length
      + (elems.filter (fun e => truthyStr e.src && isLogo e)).length
      + (elems.filter (fun e => truthyStr e.src && !isLogo e)).length
      = elems.length := by
  induction elems with
  | nil => simp
  | cons e es ih =>
    by_cases hsrc : truthyStr e.src
    · by_cases hlogo : isLogo e
      · simp [List.filter_cons, hsrc, hlogo]
        omega
      · simp [List.filter_cons, hsrc, hlogo]
        omega
    · simp [List.filter_cons, hsrc]
      omega

/-- C6 (counterexample): the claim reads "every image element ends up in
exactly one of the two lists", but an element whose `src` attribute is
absent (falsy) is skipped by the `if (src)` guard and lands in neither
list — here a 200×200 element with non-logo alt text, which the claimed
rule would place in `dealImages`. -/
theorem classifyImgs_srcless_in_neither_list :
    isLogo srclessElem = false ∧
    classifyImgs [srclessElem] = { dealImages := [], logoImages := [] } := by
  constructor
  · decide
  · decide

/-- C6 (amended): every image element with a truthy (present, non-empty)
`src` is placed, in document order, in `logoImages` exactly when its alt
text lower-cased contains "logo" or its width or height (absent or
unparsable attributes counting as 0) is below 150, and in `dealImages`
otherwise; an element with a falsy `src` is placed in neither list, so the
no-src, logo and deal groups partition the elements. -/
theorem classifyImgs_spec (elems : List ImgElem) :
    (classifyImgs elems).logoImages
      = (elems.filter (fun e => truthyStr e.src && isLogo e)).map elemCandidate ∧
    (classifyImgs elems).dealImages
      = (elems.filter (fun e => truthyStr e.src && !isLogo e)).map elemCandidate ∧
    (elems.filter (fun e => !truthyStr e.src)).length
      + (classifyImgs elems).logoImages.length
      + (classifyImgs elems).dealImages.length
      = elems.length := by
  have h := classifyImgs_foldl elems { dealImages := [], logoImages := [] }
  refine ⟨?_, ?_, ?_⟩
  · rw [classifyImgs, h]
    simp
  · rw [classifyImgs, h]
    simp
  · rw [classifyImgs, h]
    simpa using classify_three_way_count elems

/-! ## Theorems: the expiry-notifier sweep (claims C1, C2, C5, C8) -/

theorem dealMatches_userId {deadline : Int} {uid : Nat} {d : StoredDeal}
    (h : dealMatches deadline uid d = true) : d.userId = uid := by
  simp only [dealMatches, Bool.and_eq_true, beq_iff_eq] at h
  exact h.1.1.1

theorem dealMatches_setNotified (deadline : Int) (uid : Nat) (d : StoredDeal) :
    dealMatches deadline uid (setNotified d) = false := by
  simp [dealMatches, setNotified]

theorem dealMatches_other_user {deadline : Int} {uid vid : Nat} {d : StoredDeal}
    (h : dealMatches deadline uid d = true) (hne : vid ≠ uid) :
    dealMatches deadline vid d = false := by
  have hd := dealMatches_userId h
  have hbeq : (d.userId == vid) = false :=
    beq_eq_false_iff_ne.mpr (fun hx => hne ((hd.symm.trans hx).symm))
  simp [dealMatches, hbeq]

theorem markNotified_map_id (ids : List Nat) (ds : List StoredDeal) :
    (markNotified ids ds).map (fun d => d.id) = ds.map (fun d => d.id) := by
  unfold markNotified
  rw [List.map_map]
  apply List.map_congr_left
  intro d _
  by_cases h : d.id ∈ ids <;> simp [h, setNotified]

theorem markNotified_matching_eq_map (deadline : Int) (uid : Nat)
    (ds : List StoredDeal) (hD : (ds.map (fun d => d.id)).Nodup) :
    markNotified ((ds.filter (dealMatches deadline uid)).map (fun d => d.id)) ds
      = ds.map (fun d => if dealMatches deadline uid d then setNotified d else d) := by
  unfold markNotified
  apply List.map_congr_left
  intro d hd
  by_cases hm : dealMatches deadline uid d = true
  · have hmem : d.id ∈ (ds.filter (dealMatches deadline uid)).map (fun d => d.id) :=
      List.mem_map.mpr ⟨d, List.mem_filter.mpr ⟨hd, hm⟩, rfl⟩
    rw [if_pos hmem, if_pos hm]
  · have hnmem : d.id ∉ (ds.filter (dealMatches deadline uid)).map (fun d => d.id) := by
      intro hmem
      obtain ⟨m, hmf, hmid⟩ := List.mem_map.mp hmem
      have hmds : m ∈ ds := (List.mem_filter.mp hmf).1
      have hmd : m = d := List.inj_on_of_nodup_map hD hmds hd hmid
      rw [hmd] at hmf
      exact hm (List.mem_filter.mp hmf).2
    rw [if_neg hnmem, if_neg hm]

theorem filter_markNotified_other (deadline : Int) (u v : UserRow)
    (hne : v.id ≠ u.id) (ds : List StoredDeal)
    (hD : (ds.map (fun d => d.id)).Nodup) :
    (markNotified ((ds.filter (dealMatches deadline u.id)).map (fun d => d.id)) ds).filter
        (dealMatches deadline v.id)
      = ds.filter (dealMatches deadline v.id) := by
  rw [markNotified_matching_eq_map deadline u.id ds hD]
  rw [List.filter_map]
  have hcong : ∀ d ∈ ds,
      ((dealMatches deadline v.id) ∘
        (fun d => if dealMatches deadline u.id d then setNotified d else d)) d
      = dealMatches deadline v.id d := by
    intro d _
    by_cases hm : dealMatches deadline u.id d = true
    · simp only [Function.comp_apply, if_pos hm]
      rw [dealMatches_setNotified, dealMatches_other_user hm hne]
    · simp [Function.comp_apply, if_neg hm]
  rw [List.filter_congr hcong]
  have hid : ∀ d ∈ ds.filter (dealMatches deadline v.id),
      (fun d => if dealMatches deadline u.id d then setNotified d else d) d = id d := by
    intro d hdf
    have hdm := (List.mem_filter.mp hdf).2
    have hu : dealMatches deadline u.id d = false :=
      dealMatches_other_user hdm (fun hx => hne hx.symm) |>.symm ▸
        dealMatches_other_user hdm (fun hx => hne hx.symm)
    simp [hu, id]
  rw [List.map_congr_left hid, List.map_id]

theorem sweepGo_success_spec (deadline : Int) :
    ∀ (users : List UserRow) (deals : List StoredDeal) (sent : List SentNotification),
    (users.map (fun u => u.id)).Nodup → (deals.map (fun d => d.id)).Nodup →
    sweepGo deadline (fun _ => true) users deals sent =
      { deals := sweepFinalDealsSpec deadline users deals,
        sent := sent ++ sweepNotifsSpec deadline users deals,
        ok := true } := by
  intro users
  induction users with
  | nil =>
    intro deals sent _ _
    simp [sweepGo, sweepFinalDealsSpec, sweepNotifsSpec, notifiedInSweep]
  | cons u rest ih =>
    intro deals sent hU hD
    have hUc : (∀ x ∈ rest, ¬ x.id = u.id) ∧ (rest.map (fun v => v.id)).Nodup := by
      simpa using hU
    have hUrest : (rest.map (fun v => v.id)).Nodup := hUc.2
    by_cases hpe : prefEnabled u = true
    · by_cases hemp : (deals.filter (dealMatches deadline u.id)).isEmpty = true
      · simp only [sweepGo]
        rw [if_pos hpe, if_pos hemp, ih deals sent hUrest hD]
        have hall : ∀ d ∈ deals, ¬ dealMatches deadline u.id d = true :=
          List.filter_eq_nil_iff.mp (List.isEmpty_iff.mp hemp)
        have h1 : sweepFinalDealsSpec deadline (u :: rest) deals
            = sweepFinalDealsSpec deadline rest deals := by
          unfold sweepFinalDealsSpec
          apply List.map_congr_left
          intro d hd
          have hm : dealMatches deadline u.id d = false := by
            simpa using hall d hd
          simp [notifiedInSweep, hm]
        have h2 : sweepNotifsSpec deadline (u :: rest) deals
            = sweepNotifsSpec deadline rest deals := by
          unfold sweepNotifsSpec
          rw [List.filterMap_cons]
          simp [hemp]
        rw [h1, h2]
      · simp only [sweepGo]
        rw [if_pos hpe, if_neg hemp]
        have hD' : ((markNotified ((deals.filter (dealMatches deadline u.id)).map
            (fun d => d.id)) deals).map (fun d => d.id)).Nodup := by
          rw [markNotified_map_id]
          exact hD
        rw [ih _ _ hUrest hD']
        have h1 : sweepNotifsSpec deadline rest
            (markNotified ((deals.filter (dealMatches deadline u.id)).map
              (fun d => d.id)) deals)
            = sweepNotifsSpec deadline rest deals := by
          unfold sweepNotifsSpec
          apply List.filterMap_congr
          intro v hv
          have hvne : v.id ≠ u.id := hUc.1 v hv
          rw [filter_markNotified_other deadline u v hvne deals hD]
        have h2 : sweepFinalDealsSpec deadline rest
            (markNotified ((deals.filter (dealMatches deadline u.id)).map
              (fun d => d.id)) deals)
            = sweepFinalDealsSpec deadline (u :: rest) deals := by
          rw [markNotified_matching_eq_map deadline u.id deals hD]
          unfold sweepFinalDealsSpec
          rw [List.map_map]
          apply List.map_congr_left
          intro d hd
          by_cases hm : dealMatches deadline u.id d = true
          · simp only [Function.comp_apply, if_pos hm]
            have hrest : notifiedInSweep deadline rest (setNotified d) = false := by
              simp [notifiedInSweep, dealMatches_setNotified]
            have hcons : notifiedInSweep deadline (u :: rest) d = true := by
              simp [notifiedInSweep, hpe, hm]
            rw [hrest, hcons]
            simp
          · simp only [Function.comp_apply, if_neg hm]
            have hcons : notifiedInSweep deadline (u :: rest) d
                = notifiedInSweep deadline rest d := by
              simp [notifiedInSweep, hm]
            rw [hcons]
        have h3 : sweepNotifsSpec deadline (u :: rest) deals
            = { userId := u.id, email := u.email,
                deals := deals.filter (dealMatches deadline u.id) }
              :: sweepNotifsSpec deadline rest deals := by
          unfold sweepNotifsSpec
          rw [List.filterMap_cons]
          simp [hpe, hemp]
        rw [h1, h2, h3]
        simp
    · simp only [sweepGo]
      rw [if_neg hpe, ih deals sent hUrest hD]
      have h1 : sweepFinalDealsSpec deadline (u :: rest) deals
          = sweepFinalDealsSpec deadline rest deals := by
        unfold sweepFinalDealsSpec
        apply List.map_congr_left
        intro d hd
        have hpe' : prefEnabled u = false := by simpa using hpe
        simp [notifiedInSweep, hpe']
      have h2 : sweepNotifsSpec deadline (u :: rest) deals
          = sweepNotifsSpec deadline rest deals := by
        unfold sweepNotifsSpec
        rw [List.filterMap_cons]
        have hpe' : prefEnabled u = false := by simpa using hpe
        simp [hpe']
      rw [h1, h2]

theorem sweepNotifsSpec_mem_userId {deadline : Int} {users : List UserRow}
    {deals : List StoredDeal} {n : SentNotification}
    (h : n ∈ sweepNotifsSpec deadline users deals) : ∃ w ∈ users, n.userId = w.id := by
  unfold sweepNotifsSpec at h
  obtain ⟨w, hw, hsome⟩ := List.mem_filterMap.mp h
  refine ⟨w, hw, ?_⟩
  by_cases hc : (prefEnabled w && !(deals.filter (dealMatches deadline w.id)).isEmpty) = true
  · rw [if_pos hc] at hsome
    rw [← Option.some_inj.mp hsome]
  · rw [if_neg hc] at hsome
    exact absurd hsome (by simp)

theorem sweepNotifsSpec_filter_absent (deadline : Int) (users : List UserRow)
    (deals : List StoredDeal) (uid : Nat) (h : ∀ w ∈ users, w.id ≠ uid) :
    (sweepNotifsSpec deadline users deals).filter (fun n => n.userId == uid) = [] := by
  apply List.filter_eq_nil_iff.mpr
  intro n hn
  obtain ⟨w, hw, heq⟩ := sweepNotifsSpec_mem_userId hn
  simp [heq, h w hw]

theorem sweepNotifsSpec_filter_user (deadline : Int) :
    ∀ (users : List UserRow) (deals : List StoredDeal) (u : UserRow),
    (users.map (fun v => v.id)).Nodup → u ∈ users → prefEnabled u = true →
    (sweepNotifsSpec deadline users deals).filter (fun n => n.userId == u.id)
      = if (deals.filter (dealMatches deadline u.id)).isEmpty then []
        else [{ userId := u.id, email := u.email,
                deals := deals.filter (dealMatches deadline u.id) }] := by
  intro users
  induction users with
  | nil =>
    intro deals u _ hu
    simp at hu
  | cons v rest ih =>
    intro deals u hU hu hpe
    have hUc : (∀ x ∈ rest, ¬ x.id = v.id) ∧ (rest.map (fun w => w.id)).Nodup := by
      simpa using hU
    rcases List.mem_cons.mp hu with huv | hurest
    · subst huv
      have habsent : (sweepNotifsSpec deadline rest deals).filter
          (fun n => n.userId == u.id) = [] :=
        sweepNotifsSpec_filter_absent deadline rest deals u.id
          (fun w hw => hUc.1 w hw)
      by_cases hemp : (deals.filter (dealMatches deadline u.id)).isEmpty = true
      · have hnotc : ¬ ((prefEnabled u
            && !(deals.filter (dealMatches deadline u.id)).isEmpty) = true) := by
          simp [hemp]
        have hstep : sweepNotifsSpec deadline (u :: rest) deals
            = sweepNotifsSpec deadline rest deals := by
          unfold sweepNotifsSpec
          rw [List.filterMap_cons, if_neg hnotc]
        rw [hstep, if_pos hemp]
        exact habsent
      · have hemp' : (deals.filter (dealMatches deadline u.id)).isEmpty = false := by
          simpa using hemp
        have hc : (prefEnabled u
            && !(deals.filter (dealMatches deadline u.id)).isEmpty) = true := by
          simp [hpe, hemp']
        have hstep : sweepNotifsSpec deadline (u :: rest) deals
            = { userId := u.id, email := u.email,
                deals := deals.filter (dealMatches deadline u.id) }
              :: sweepNotifsSpec deadline rest deals := by
          unfold sweepNotifsSpec
          rw [List.filterMap_cons, if_pos hc]
        rw [hstep, if_neg hemp]
        simp [List.filter_cons, habsent]
    · have hvne : v.id ≠ u.id := fun hx => hUc.1 u hurest hx.symm
      by_cases hcond : (prefEnabled v
          && !(deals.filter (dealMatches deadline v.id)).isEmpty) = true
      · have hstep : sweepNotifsSpec deadline (v :: rest) deals
            = { userId := v.id, email := v.email,
                deals := deals.filter (dealMatches deadline v.id) }
              :: sweepNotifsSpec deadline rest deals := by
          unfold sweepNotifsSpec
          rw [List.filterMap_cons, if_pos hcond]
        rw [hstep, List.filter_cons]
        have hne : (v.id == u.id) = false := beq_eq_false_iff_ne.mpr hvne
        simp only [hne, Bool.false_eq_true, if_false]
        exact ih deals u hUc.2 hurest hpe
      · have hstep : sweepNotifsSpec deadline (v :: rest) deals
            = sweepNotifsSpec deadline rest deals := by
          unfold sweepNotifsSpec
          rw [List.filterMap_cons, if_neg hcond]
        rw [hstep]
        exact ih deals u hUc.2 hurest hpe

theorem sweepFinalDealsSpec_filter_user (deadline : Int) (users : List UserRow)
    (deals : List StoredDeal) (u : UserRow)
    (hU : (users.map (fun v => v.id)).Nodup) (hu : u ∈ users)
    (hpe : prefEnabled u = true) :
    (sweepFinalDealsSpec deadline users deals).filter (fun d => d.userId == u.id)
      = (deals.filter (fun d => d.userId == u.id)).map
          (fun d => if dealMatches deadline u.id d then setNotified d else d) := by
  unfold sweepFinalDealsSpec
  rw [List.filter_map]
  have hcomp : ∀ d ∈ deals,
      ((fun d => d.userId == u.id) ∘
        (fun d => if notifiedInSweep deadline users d then setNotified d else d)) d
      = (d.userId == u.id) := by
    intro d _
    by_cases hn : notifiedInSweep deadline users d = true
    · simp [Function.comp_apply, hn, setNotified]
    · simp only [Bool.not_eq_true] at hn
      simp [Function.comp_apply, hn]
  rw [List.filter_congr hcomp]
  apply List.map_congr_left
  intro d hdf
  have hdu : d.userId = u.id := beq_iff_eq.mp (List.mem_filter.mp hdf).2
  suffices hsuff : notifiedInSweep deadline users d = dealMatches deadline u.id d by
    rw [hsuff]
  by_cases hm : dealMatches deadline u.id d = true
  · rw [hm]
    unfold notifiedInSweep
    exact List.any_eq_true.mpr ⟨u, hu, by simp [hpe, hm]⟩
  · have hm' : dealMatches deadline u.id d = false := by simpa using hm
    rw [hm']
    unfold notifiedInSweep
    apply List.any_eq_false.mpr
    intro v hv hvp
    rw [Bool.and_eq_true] at hvp
    have hvid : d.userId = v.id := dealMatches_userId hvp.2
    have hveq : v = u := List.inj_on_of_nodup_map hU hv hu (by rw [← hvid, hdu])
    rw [hveq] at hvp
    exact hm hvp.2

/-- C1: in one run of the sweep (all sends succeeding), for every user `u`
with the "expiring soon" preference enabled: a deal of `u` is in `u`'s
matching set exactly when it is active, not yet notified, and has a
non-null expiry date at most 3 days after `now`; exactly one notification
is sent to `u` when that set is non-empty (none otherwise), naming exactly
the matching deals; and among `u`'s deals exactly the matching ones are
marked notified by the batched update, every other deal of `u` being left
unchanged. -/
theorem checkAndNotify_per_user (users : List UserRow) (deals : List StoredDeal)
    (now : Int) (u : UserRow)
    (hU : (users.map (fun v => v.id)).Nodup)
    (hD : (deals.map (fun d => d.id)).Nodup)
    (hu : u ∈ users) (hpe : prefEnabled u = true) :
    (∀ d ∈ deals, d.userId = u.id →
      (d ∈ deals.filter (dealMatches (now + 3) u.id) ↔
        (d.isActive = true ∧ d.isNotified = false ∧
          ∃ e, d.expiryDate = some e ∧ e ≤ now + 3))) ∧
    ((checkAndNotifyExpiringDeals users deals now (fun _ => true)).sent.filter
        (fun n => n.userId == u.id)
      = if (deals.filter (dealMatches (now + 3) u.id)).isEmpty then []
        else [{ userId := u.id, email := u.email,
                deals := deals.filter (dealMatches (now + 3) u.id) }]) ∧
    ((checkAndNotifyExpiringDeals users deals now (fun _ => true)).deals.filter
        (fun d => d.userId == u.id)
      = (deals.filter (fun d => d.userId == u.id)).map
          (fun d => if dealMatches (now + 3) u.id d then setNotified d else d)) := by
  have hrun := sweepGo_success_spec (now + 3) users deals [] hU hD
  refine ⟨?_, ?_, ?_⟩
  · intro d hd hdu
    rw [List.mem_filter]
    constructor
    · intro hf
      have hm := hf.2
      simp only [dealMatches, Bool.and_eq_true, beq_iff_eq] at hm
      refine ⟨hm.1.1.2, by simpa using hm.1.2, ?_⟩
      rcases hexp : d.expiryDate with _ | e
      · rw [hexp] at hm
        exact absurd hm.2 (by simp)
      · rw [hexp] at hm
        exact ⟨e, rfl, by simpa using hm.2⟩
    · rintro ⟨hact, hnot, e, hexp, hle⟩
      refine ⟨hd, ?_⟩
      simp [dealMatches, hdu, hact, hnot, hexp, hle]
  · rw [checkAndNotifyExpiringDeals, hrun]
    simpa using sweepNotifsSpec_filter_user (now + 3) users deals u hU hu hpe
  · rw [checkAndNotifyExpiringDeals, hrun]
    exact sweepFinalDealsSpec_filter_user (now + 3) users deals u hU hu hpe

theorem sweepFinalDealsSpec_map_id (deadline : Int) (users : List UserRow)
    (deals : List StoredDeal) :
    (sweepFinalDealsSpec deadline users deals).map (fun d => d.id)
      = deals.map (fun d => d.id) := by
  unfold sweepFinalDealsSpec
  rw [List.map_map]
  apply List.map_congr_left
  intro d _
  by_cases h : notifiedInSweep deadline users d = true <;> simp [h, setNotified]

theorem sweepFinalDealsSpec_filter_enabled_empty (deadline : Int)
    (users : List UserRow) (deals : List StoredDeal) (v : UserRow)
    (hv : v ∈ users) (hpev : prefEnabled v = true) :
    (sweepFinalDealsSpec deadline users deals).filter (dealMatches deadline v.id)
      = [] := by
  apply List.filter_eq_nil_iff.mpr
  intro d' hd'
  unfold sweepFinalDealsSpec at hd'
  obtain ⟨d, hd, hfd⟩ := List.mem_map.mp hd'
  by_cases hn : notifiedInSweep deadline users d = true
  · rw [if_pos hn] at hfd
    rw [← hfd]
    simp [dealMatches_setNotified]
  · rw [if_neg hn] at hfd
    rw [← hfd]
    have hfalse : notifiedInSweep deadline users d = false := by simpa using hn
    have hall := List.any_eq_false.mp hfalse v hv
    intro hmd
    exact hall (by simp [hpev, hmd])

/-- C5: running the sweep a second time on the state left by a fully
successful sweep (same users, same deals, same time, all sends and updates
succeeding) sends zero notifications: every deal a notification could
match was marked notified by the first run. -/
theorem checkAndNotify_idempotent (users : List UserRow) (deals : List StoredDeal)
    (now : Int)
    (hU : (users.map (fun v => v.id)).Nodup)
    (hD : (deals.map (fun d => d.id)).Nodup) :
    (checkAndNotifyExpiringDeals users
      (checkAndNotifyExpiringDeals users deals now (fun _ => true)).deals
      now (fun _ => true)).sent = [] := by
  have hrun1 := sweepGo_success_spec (now + 3) users deals [] hU hD
  have hD1 : ((sweepFinalDealsSpec (now + 3) users deals).map (fun d => d.id)).Nodup := by
    rw [sweepFinalDealsSpec_map_id]
    exact hD
  have hrun2 := sweepGo_success_spec (now + 3) users
    (sweepFinalDealsSpec (now + 3) users deals) [] hU hD1
  have hnil : sweepNotifsSpec (now + 3) users
      (sweepFinalDealsSpec (now + 3) users deals) = [] := by
    unfold sweepNotifsSpec
    rw [List.filterMap_eq_nil_iff]
    intro v hv
    by_cases hpev : prefEnabled v = true
    · have hfe := sweepFinalDealsSpec_filter_enabled_empty (now + 3) users deals v hv hpev
      have hie : ((sweepFinalDealsSpec (now + 3) users deals).filter
          (dealMatches (now + 3) v.id)).isEmpty = true := by
        rw [hfe]
        rfl
      simp [hie]
    · have hpev' : prefEnabled v = false := by simpa using hpev
      simp [hpev']
  simp only [checkAndNotifyExpiringDeals]
  rw [hrun1]
  simp only []
  rw [hrun2, hnil]
  rfl

theorem filter_user_markNotified (deadline : Int) (vid uid : Nat) (hne : vid ≠ uid)
    (ds : List StoredDeal) (hD : (ds.map (fun d => d.id)).Nodup) :
    (markNotified ((ds.filter (dealMatches deadline vid)).map (fun d => d.id)) ds).filter
        (fun d => d.userId == uid)
      = ds.filter (fun d => d.userId == uid) := by
  rw [markNotified_matching_eq_map deadline vid ds hD]
  rw [List.filter_map]
  have hcomp : ∀ d ∈ ds,
      ((fun d => d.userId == uid) ∘
        (fun d => if dealMatches deadline vid d then setNotified d else d)) d
      = (d.userId == uid) := by
    intro d _
    by_cases hm : dealMatches deadline vid d = true
    · simp [Function.comp_apply, hm, setNotified]
    · have hm' : dealMatches deadline vid d = false := by simpa using hm
      simp [Function.comp_apply, hm']
  rw [List.filter_congr hcomp]
  have hid : ∀ d ∈ ds.filter (fun d => d.userId == uid),
      (fun d => if dealMatches deadline vid d then setNotified d else d) d = id d := by
    intro d hdf
    have hdu : d.userId = uid := beq_iff_eq.mp (List.mem_filter.mp hdf).2
    have hm : dealMatches deadline vid d = false := by
      rcases hv : dealMatches deadline vid d with _ | _
      · rfl
      · exact absurd (dealMatches_userId hv) (by rw [hdu]; exact fun hx => hne hx.symm)
    simp [hm, id]
  rw [List.map_congr_left hid, List.map_id]

theorem sweepGo_filter_user_invariant (deadline : Int) (sendOk : Nat → Bool)
    (uid : Nat) :
    ∀ (users : List UserRow) (deals : List StoredDeal) (sent : List SentNotification),
    (∀ v ∈ users, v.id ≠ uid) → (deals.map (fun d => d.id)).Nodup →
    (sweepGo deadline sendOk users deals sent).deals.filter (fun d => d.userId == uid)
      = deals.filter (fun d => d.userId == uid) := by
  intro users
  induction users with
  | nil =>
    intro deals sent _ _
    simp [sweepGo]
  | cons v rest ih =>
    intro deals sent hall hD
    have hrest : ∀ w ∈ rest, w.id ≠ uid := fun w hw => hall w (by simp [hw])
    have hvne : v.id ≠ uid := hall v (by simp)
    simp only [sweepGo]
    by_cases hpe : prefEnabled v = true
    · rw [if_pos hpe]
      by_cases hemp : (deals.filter (dealMatches deadline v.id)).isEmpty = true
      · rw [if_pos hemp]
        exact ih deals sent hrest hD
      · rw [if_neg hemp]
        by_cases hsend : sendOk v.id = true
        · rw [if_pos hsend]
          have hD' : ((markNotified ((deals.filter (dealMatches deadline v.id)).map
              (fun d => d.id)) deals).map (fun d => d.id)).Nodup := by
            rw [markNotified_map_id]
            exact hD
          rw [ih _ _ hrest hD']
          exact filter_user_markNotified deadline v.id uid hvne deals hD
        · rw [if_neg hsend]
    · rw [if_neg hpe]
      exact ih deals sent hrest hD

theorem sweepGo_send_failure_no_mark (deadline : Int) (sendOk : Nat → Bool)
    (u : UserRow) (hsend : sendOk u.id = false) :
    ∀ (users : List UserRow) (deals : List StoredDeal) (sent : List SentNotification),
    (users.map (fun v => v.id)).Nodup → (deals.map (fun d => d.id)).Nodup →
    u ∈ users →
    (sweepGo deadline sendOk users deals sent).deals.filter (fun d => d.userId == u.id)
      = deals.filter (fun d => d.userId == u.id) := by
  intro users
  induction users with
  | nil =>
    intro deals sent _ _ hu
    simp at hu
  | cons v rest ih =>
    intro deals sent hU hD hu
    have hUc : (∀ x ∈ rest, ¬ x.id = v.id) ∧ (rest.map (fun w => w.id)).Nodup := by
      simpa using hU
    simp only [sweepGo]
    rcases List.mem_cons.mp hu with huv | hurest
    · subst huv
      by_cases hpe : prefEnabled u = true
      · rw [if_pos hpe]
        by_cases hemp : (deals.filter (dealMatches deadline u.id)).isEmpty = true
        · rw [if_pos hemp]
          exact sweepGo_filter_user_invariant deadline sendOk u.id rest deals sent
            (fun w hw => fun hx => hUc.1 w hw hx) hD
        · rw [if_neg hemp, if_neg (by simp [hsend])]
      · rw [if_neg hpe]
        exact sweepGo_filter_user_invariant deadline sendOk u.id rest deals sent
          (fun w hw => fun hx => hUc.1 w hw hx) hD
    · have hvne : v.id ≠ u.id := fun hx => hUc.1 u hurest hx.symm
      by_cases hpe : prefEnabled v = true
      · rw [if_pos hpe]
        by_cases hemp : (deals.filter (dealMatches deadline v.id)).isEmpty = true
        · rw [if_pos hemp]
          exact ih deals sent hUc.2 hD hurest
        · rw [if_neg hemp]
          by_cases hsendv : sendOk v.id = true
          · rw [if_pos hsendv]
            have hD' : ((markNotified ((deals.filter (dealMatches deadline v.id)).map
                (fun d => d.id)) deals).map (fun d => d.id)).Nodup := by
              rw [markNotified_map_id]
              exact hD
            rw [ih _ _ hUc.2 hD' hurest]
            exact filter_user_markNotified deadline v.id u.id hvne deals hD
          · rw [if_neg hsendv]
      · rw [if_neg hpe]
        exact ih deals sent hUc.2 hD hurest

/-- C2: in any run of the sweep, if the mail send for a user fails (the
`sendMail` call throws, so the sweep-level `catch` fires before that
user's update runs), then none of that user's deals is marked notified in
that sweep: the user's rows in the deals table are exactly as they were
before the sweep. -/
theorem checkAndNotify_send_failure_no_mark (users : List UserRow)
    (deals : List StoredDeal) (now : Int) (sendOk : Nat → Bool) (u : UserRow)
    (hU : (users.map (fun v => v.id)).Nodup)
    (hD : (deals.map (fun d => d.id)).Nodup)
    (hu : u ∈ users) (hsend : sendOk u.id = false) :
    (checkAndNotifyExpiringDeals users deals now sendOk).deals.filter
        (fun d => d.userId == u.id)
      = deals.filter (fun d => d.userId == u.id) := by
  rw [checkAndNotifyExpiringDeals]
  exact sweepGo_send_failure_no_mark (now + 3) sendOk u hsend users deals [] hU hD hu

/-! ## Theorems: batch error handling (claim C8) and persistence guards
(claim C3) -/

/-- C8 (counterexample): the claim reads "a failure while processing one
item (one email, or one user) does not abort the batch", but the notifier
sweep has no per-user `try`: with two enabled users each owning a matching
deal and the first user's send failing, the whole sweep sends nothing —
the second user is never processed, although running the sweep on that
user alone would notify them. -/
theorem sweep_user_failure_aborts_batch :
    (checkAndNotifyExpiringDeals [userOne, userTwo] [dealA, dealTwo] 0
      sendFailsForUserOne).sent = [] ∧
    (checkAndNotifyExpiringDeals [userOne, userTwo] [dealA, dealTwo] 0
      sendFailsForUserOne).ok = false ∧
    (checkAndNotifyExpiringDeals [userTwo] [dealA, dealTwo] 0
      sendFailsForUserOne).sent
      = [{ userId := 2, email := "two@example.com", deals := [dealTwo] }] := by
  refine ⟨by decide, by decide, by decide⟩

/-- C8 (amended): in the scan loop a per-email failure contributes nothing
and processing continues with the remaining emails, and a failed pre-batch
user lookup (missing user or missing tokens) aborts with a request-level
error; in the notifier sweep, however, a failure while processing one user
(a failed send) aborts the remainder of the sweep — the failing user's
update and all later users are skipped, the sweep-level `catch` swallowing
the error. -/
theorem batch_error_handling_spec :
    (∀ (parse : Email → Option DealDraft) (htmlImgs : String → List ImgElem)
       (uid : Nat) (xs ys : List Email) (e : Email),
       scanEmailSaved parse htmlImgs uid e = none →
       scanLoop parse htmlImgs uid (xs ++ e :: ys)
         = scanLoop parse htmlImgs uid xs ++ scanLoop parse htmlImgs uid ys) ∧
    (∀ (emails : List Email) (parse : Email → Option DealDraft)
       (htmlImgs : String → List ImgElem),
       scanDealsEndpoint none emails parse htmlImgs = .unauthenticated) ∧
    (∀ (u : UserRow) (emails : List Email) (parse : Email → Option DealDraft)
       (htmlImgs : String → List ImgElem), u.gmailTokens = none →
       scanDealsEndpoint (some u) emails parse htmlImgs = .unauthenticated) ∧
    (∀ (deadline : Int) (sendOk : Nat → Bool) (u : UserRow)
       (users2 : List UserRow) (ds : List StoredDeal)
       (sent : List SentNotification),
       prefEnabled u = true →
       (ds.filter (dealMatches deadline u.id)).isEmpty = false →
       sendOk u.id = false →
       sweepGo deadline sendOk (u :: users2) ds sent
         = { deals := ds, sent := sent, ok := false }) := by
  refine ⟨?_, ?_, ?_, ?_⟩
  · intro parse htmlImgs uid xs ys e he
    simp [scanLoop, List.filterMap_append, List.filterMap_cons, he]
  · intro emails parse htmlImgs
    rfl
  · intro u emails parse htmlImgs hg
    simp [scanDealsEndpoint, hg]
  · intro deadline sendOk u users2 ds sent hpe hne hsend
    have h1 : ¬ ((ds.filter (dealMatches deadline u.id)).isEmpty = true) := by
      simp [hne]
    have h2 : ¬ (sendOk u.id = true) := by simp [hsend]
    simp only [sweepGo]
    rw [if_pos hpe, if_neg h1, if_neg h2]

/-- C3 (counterexample): the claim reads "a DealDraft in which restaurant
or dealDescription is missing is discarded by the pipeline and never
passed to the storage insert", but the pipeline checks only that the
parsed draft is non-null: a draft with null `restaurant` and
`dealDescription` is assembled into a `dealData` payload and handed to the
insert, which then fails on the schema's NOT NULL constraints. -/
theorem scan_passes_null_fields_to_insert :
    ((scanEmailInsertPayload parseToNullFields noImgElems plainEmail).map
        (fun p => (p.restaurant, p.dealDescription))) = some (none, none) ∧
    scanEmailSaved parseToNullFields noImgElems 7 plainEmail = none := by
  refine ⟨by decide, by decide⟩

/-- C3 (amended): every successfully persisted deal row carries the
non-null `restaurant` and `dealDescription` it was inserted with — but the
guarantee comes from the storage schema's NOT NULL constraints, not from
the pipeline: an insert payload missing either field makes the insert
fail (and the email is skipped), and a successful insert implies both
fields were present. -/
theorem saveDeal_requires_nonnull_fields (uid : Nat) (d : DealData) :
    (∀ row : DealRow, saveDeal uid d = some row →
      d.restaurant = some row.restaurant
        ∧ d.dealDescription = some row.dealDescription) ∧
    ((d.restaurant = none ∨ d.dealDescription = none) → saveDeal uid d = none) := by
  constructor
  · intro row h
    unfold saveDeal at h
    rcases hr : d.restaurant with _ | r <;> rw [hr] at h
    · simp at h
    · rcases hdd : d.dealDescription with _ | ds <;> rw [hdd] at h
      · simp at h
      · rcases hs : d.savings with _ | sv <;> rw [hs] at h
        · simp at h
        · simp only [Option.some_inj] at h
          subst h
          exact ⟨by simp [hr], by simp [hdd]⟩
  · intro h
    unfold saveDeal
    rcases h with h | h
    · rw [h]
    · rcases hr : d.restaurant with _ | r
      · rfl
      · rw [h]

/-! ## Witnesses (concrete instantiations of the theorems above) -/

/-- Witness for C1 at the spec's worked example: one user, deals A
(expires in 2 days, unnotified), B (already notified), C (expires in 10
days); exactly one notification is sent and it names only A. -/
theorem checkAndNotify_per_user_witness :
    (checkAndNotifyExpiringDeals [userOne] [dealA, dealB, dealC] 0
        (fun _ => true)).sent.filter (fun n => n.userId == userOne.id)
      = [{ userId := 1, email := "one@example.com", deals := [dealA] }] := by
  have h := (checkAndNotify_per_user [userOne] [dealA, dealB, dealC] 0 userOne
    (by decide) (by decide) (by decide) (by decide)).2.1
  rw [h]
  decide

/-- Witness for C2: with the send failing for user 1, that user's deals
are unchanged by the sweep. -/
theorem checkAndNotify_send_failure_no_mark_witness :
    (checkAndNotifyExpiringDeals [userOne] [dealA, dealB, dealC] 0
        sendFailsForUserOne).deals.filter (fun d => d.userId == userOne.id)
      = [dealA, dealB, dealC].filter (fun d => d.userId == userOne.id) :=
  checkAndNotify_send_failure_no_mark [userOne] [dealA, dealB, dealC] 0
    sendFailsForUserOne userOne (by decide) (by decide) (by decide) (by decide)

/-- Witness for C4: prose-wrapped JSON object parsed as the object
alone. -/
theorem parseEmailWithClaude_spec_witness :
    parseEmailWithClaude parseFixtureSpan
      (wrappedPre ++ (openBrace :: wrappedMid ++ [closeBrace]) ++ wrappedPost)
      = some fullDraft :=
  (parseEmailWithClaude_spec parseFixtureSpan [] wrappedPre wrappedMid
      wrappedPost fullDraft).1
    (by decide) (by decide) (by decide) (by decide) (by decide)

/-- Witness for C5: the second sweep over the worked example sends
nothing. -/
theorem checkAndNotify_idempotent_witness :
    (checkAndNotifyExpiringDeals [userOne]
      (checkAndNotifyExpiringDeals [userOne] [dealA, dealB, dealC] 0
        (fun _ => true)).deals
      0 (fun _ => true)).sent = [] :=
  checkAndNotify_idempotent [userOne] [dealA, dealB, dealC] 0
    (by decide) (by decide)

/-- Witness for C7: between a 10×10 and a 300×200 candidate, selection
returns the large candidate's URL. -/
theorem selectBestDealImage_spec_witness :
    selectBestDealImage { dealImages := [smallCand, largeCand], logoImages := [] }
      = some (some "https://imgs.example/hero.png") :=
  (selectBestDealImage_spec
      { dealImages := [smallCand, largeCand], logoImages := [] }).2.1
    [smallCand] largeCand [] (by decide) (by decide) (by decide)

/-- Witness for C8: at the concrete two-user instance, the sweep aborts at
the failing first user, leaving deals and notifications untouched. -/
theorem batch_error_handling_spec_witness :
    sweepGo 3 sendFailsForUserOne (userOne :: [userTwo]) [dealA, dealTwo] []
      = { deals := [dealA, dealTwo], sent := [], ok := false } :=
  batch_error_handling_spec.2.2.2 3 sendFailsForUserOne userOne [userTwo]
    [dealA, dealTwo] [] (by decide) (by decide) (by decide)

/-- Witness for C3: a fully populated payload inserts successfully and the
persisted row carries its restaurant and description. -/
theorem saveDeal_requires_nonnull_fields_witness :
    fullDealData.restaurant = some fullDealRow.restaurant
      ∧ fullDealData.dealDescription = some fullDealRow.dealDescription :=
  (saveDeal_requires_nonnull_fields 7 fullDealData).1 fullDealRow (by decide)

/-- Witness for C10: image extraction on an email with an HTML body
without `<img>` elements and one inline image attachment yields a
non-empty deal-image list whose selection is an absent URL. -/
theorem selectBestDealImage_attachment_only_witness :
    selectBestDealImage (extractImagesFromEmail noImgElems attachmentEmailPayload)
      = some none :=
  selectBestDealImage_attachment_only
    (extractImagesFromEmail noImgElems attachmentEmailPayload)
    (by decide) (by decide)

end DealDine
